import Mathlib

/-!
Verification development for the two notebooks of this repository:
a non-linear regression script (rate-law model, least-squares fit via
`curve_fit`, Student-t confidence intervals, residual summary) and a
non-linear equation solver script (three-equation residual function
driven through `fsolve`).

Real arithmetic is embedded as exact rationals.  IEEE floating point
produces non-finite values (inf/nan) instead of raising on division by
zero; we model this with `FVal`, a rational extended by a single
non-finite element.  All non-finite floats are identified: in every
expression of these scripts a non-finite value can only arise from a
division by zero and then propagates through `+`, `-`, `*` and through
division by a finite value, exactly as in IEEE arithmetic (no divisor
in these scripts is ever non-finite, so the one IEEE case that maps a
non-finite operand back to a finite result, `x / inf = 0`, is never
reached).

The external numerical library routines (`curve_fit`, `tdist.ppf`,
`opt.fsolve`) are not part of this repository; they enter the
development as abstract inputs (fitted parameters, covariance diagonal,
quantile function) or through predicates modelled from the spec.
-/

namespace Chbe

/-- A floating-point value, abstracted: either a finite (exact rational)
value or a non-finite value (inf or nan, identified). -/
inductive FVal where
| fin (q : ℚ) : FVal
| nonfin : FVal
deriving DecidableEq

/-- Addition: finite on finite operands, non-finite otherwise. -/
def FVal.add : FVal → FVal → FVal
| FVal.fin a, FVal.fin b => FVal.fin (a + b)
| _, _ => FVal.nonfin

/-- Subtraction: finite on finite operands, non-finite otherwise. -/
def FVal.sub : FVal → FVal → FVal
| FVal.fin a, FVal.fin b => FVal.fin (a - b)
| _, _ => FVal.nonfin

/-- Multiplication: finite on finite operands, non-finite otherwise. -/
def FVal.mul : FVal → FVal → FVal
| FVal.fin a, FVal.fin b => FVal.fin (a * b)
| _, _ => FVal.nonfin

/-- Division: division by zero yields the non-finite value, as IEEE
division by zero yields inf/nan rather than raising. -/
def FVal.div : FVal → FVal → FVal
| FVal.fin a, FVal.fin b => if b = 0 then FVal.nonfin else FVal.fin (a / b)
| _, _ => FVal.nonfin

instance : Add FVal := ⟨FVal.add⟩

instance : Sub FVal := ⟨FVal.sub⟩

instance : Mul FVal := ⟨FVal.mul⟩

instance : Div FVal := ⟨FVal.div⟩

/-- The rate expression of the body of the loop in `model`
(`(b1*CB[i]-CC[i]/b5)/(1+b2*CA[i]+b3*CB[i]+b4*CC[i])`). -/
def rateExpr (b1 b2 b3 b4 b5 cA cB cC : ℚ) : FVal :=
  (FVal.fin b1 * FVal.fin cB - FVal.fin cC / FVal.fin b5) /
    (FVal.fin 1 + FVal.fin b2 * FVal.fin cA + FVal.fin b3 * FVal.fin cB
      + FVal.fin b4 * FVal.fin cC)

/-- The `model` function of the regression notebook.  The source reads
`CA = x[0,:]`, `CB = x[1,:]`, `CC = x[2,:]` from its 2-D argument; here
the three rows are passed directly.  The source computes a local
`ndtps = len(CA)` that is never used again (a typo): the loop
`for i in range(ndpts)` and the allocation `np.zeros(ndpts)` use the
module-level global `ndpts`, which this embedding therefore takes as an
explicit argument. -/
def model (ndpts : ℕ) (CA CB CC : List ℚ) (b1 b2 b3 b4 b5 : ℚ) : List FVal :=
  (List.range ndpts).map fun i =>
    rateExpr b1 b2 b3 b4 b5 (CA.getD i 0) (CB.getD i 0) (CC.getD i 0)

/-- Experimental rates entered in the notebook. -/
def rate_exp : List ℚ :=
  [8.55, 3.79, 4.82, 0.02, 2.75, 14.39, 2.54, 4.35, 13, 8.5, 0.05, 11.32, 3.13]

/-- Experimental concentrations of A. -/
def CA_exp : List ℚ :=
  [470, 285, 470, 470, 470, 100, 100, 470, 100, 100, 100, 285, 285]

/-- Experimental concentrations of B. -/
def CB_exp : List ℚ :=
  [300, 80, 300, 80, 80, 190, 80, 190, 300, 300, 80, 300, 190]

/-- Experimental concentrations of C. -/
def CC_exp : List ℚ :=
  [10, 10, 120, 120, 10, 10, 65, 65, 54, 120, 120, 10, 120]

/-- The global observation count: `ndpts = len(rate_exp)`. -/
def ndpts : ℕ := rate_exp.length

/-- Initial parameter guesses `[b1_g, b2_g, b3_g, b4_g, b5_g]`. -/
def guess : List ℚ := [1, 0.1, 0.1, 0.1, 1]

/-- The parameter count: `npars = len(guess)`. -/
def npars : ℕ := guess.length

/-- The residual-summary loop of the notebook, which recomputes the
predictions at the fitted parameters:
`rate_predict[i]=(b1*CB_exp[i]-CC_exp[i]/b5)/(1+b2*CA_exp[i]+b3*CB_exp[i]+b4*CC_exp[i])`
for `i in range(ndpts)`. -/
def rate_predict (ndpts : ℕ) (CA_exp CB_exp CC_exp : List ℚ)
    (b1 b2 b3 b4 b5 : ℚ) : List FVal :=
  (List.range ndpts).map fun i =>
    (FVal.fin b1 * FVal.fin (CB_exp.getD i 0)
        - FVal.fin (CC_exp.getD i 0) / FVal.fin b5) /
      (FVal.fin 1 + FVal.fin b2 * FVal.fin (CA_exp.getD i 0)
        + FVal.fin b3 * FVal.fin (CB_exp.getD i 0)
        + FVal.fin b4 * FVal.fin (CC_exp.getD i 0))

/-- `dof = max(0, ndpts - npars)`, computed on integers as in Python. -/
def dof (ndpts npars : ℤ) : ℤ := max 0 (ndpts - npars)

/-- `tval = tdist.ppf(1.0-alpha/2.0, dof)`: the two-sided Student-t
critical value, obtained from an abstract quantile function `tppf`
standing for the library routine `tdist.ppf`. -/
def tval (tppf : ℚ → ℤ → FVal) (alpha : ℚ) (d : ℤ) : FVal :=
  tppf (1 - alpha / 2) d

/-- The body of the confidence-interval loop: with `sigma = var**0.5`
(the square root supplied as an abstract function `sq` standing for the
library power operation), the row written is
`[p - sigma*tval, p + sigma*tval]`. -/
def ciRow (sq : ℚ → FVal) (tv : FVal) (p var : ℚ) : FVal × FVal :=
  (FVal.fin p - sq var * tv, FVal.fin p + sq var * tv)

/-- The confidence-interval loop:
`ci = np.zeros([npars,2])`, then
`for i,p,var in zip(range(ndpts),popt,np.diag(pcov)): ci[i,:] = [p-sigma*tval, p+sigma*tval]`.
`pvar` stands for the covariance diagonal `np.diag(pcov)`.  Python's
`zip` truncates to the shortest of the three sequences. -/
def ci (ndpts npars : ℕ) (popt pvar : List ℚ) (sq : ℚ → FVal) (tv : FVal) :
    List (FVal × FVal) :=
  (List.zip (List.range ndpts) (popt.zip pvar)).foldl
    (fun rows iv => rows.set iv.1 (ciRow sq tv iv.2.1 iv.2.2))
    (List.replicate npars (FVal.fin 0, FVal.fin 0))

/-- `ci_width = ci[:,1] - ci[:,0]`. -/
def ci_width (rows : List (FVal × FVal)) : List FVal :=
  rows.map fun r => r.2 - r.1

/-- The reported half widths, `ci_width/2` (the `95% CI Half Width`
column of the output dataframe). -/
def ciHalfWidth (ndpts npars : ℕ) (popt pvar : List ℚ) (sq : ℚ → FVal)
    (tv : FVal) : List FVal :=
  (ci_width (ci ndpts npars popt pvar sq tv)).map fun w => w / FVal.fin 2

/-- The reported relative widths, `ci_width/2/popt*100` (the
`95% CI Half Width Rel %` column), elementwise over the parameters. -/
def ciRelPct (ndpts npars : ℕ) (popt pvar : List ℚ) (sq : ℚ → FVal)
    (tv : FVal) : List FVal :=
  ((ciHalfWidth ndpts npars popt pvar sq tv).zip popt).map fun x =>
    x.1 / FVal.fin x.2 * FVal.fin 100

/-- Modelled from the spec: the Student-t quantile routine `tdist.ppf`
is scipy library code, not part of this repository's source.  Per the
spec, at zero degrees of freedom the two-sided t critical value is
"effectively unbounded (undefined/infinite)", i.e. the routine yields a
non-finite value (it does not raise).  `tppfSpec` says an abstract
quantile function behaves this way at zero degrees of freedom. -/
def tppfSpec (tppf : ℚ → ℤ → FVal) : Prop :=
  ∀ q : ℚ, tppf q 0 = FVal.nonfin

/-- The known constant `a = 1` of the equation-solver notebook. -/
def aConst : ℚ := 1

/-- The known constant `b = 2` of the equation-solver notebook. -/
def bConst : ℚ := 2

/-- The `eqns` function of the equation-solver notebook.  The source
reads `U[0]`, `U[1]`, `U[2]` (an out-of-bounds read raises, modelled by
`none`), allocates `setzero = np.zeros(len(U))`, assigns the three
residuals into entries 0, 1, 2, and returns the list (the
`np.array(...).tolist()` round trip is the identity on the values). -/
def eqns (a b : ℚ) (U : List ℚ) : Option (List ℚ) :=
  match U.get? 0, U.get? 1, U.get? 2 with
  | some y1, some y2, some y3 =>
    some ((((List.replicate U.length (0 : ℚ)).set 0 (a * y1 ^ 2 + b * y1 - 10)).set 1
      (b * y1 ^ 2 + y2 - 12)).set 2 (b + y3 - 8))
  | _, _, _ => none

/-- Modelled from the spec: the root solver `opt.fsolve` is scipy
library code, not part of this repository's source.  Per the spec, the
solver's contract is to return a solution vector at which all residuals
of the supplied residual function are approximately zero.  A vector
`sol` is an accepted solver output for tolerance `eps` iff `eqns`
evaluated at `sol` returns residuals that are all within `eps` of 0. -/
def solverConverged (a b : ℚ) (sol : List ℚ) (eps : ℚ) : Prop :=
  ∃ rs, eqns a b sol = some rs ∧ ∀ r ∈ rs, |r| ≤ eps

/-! ### Helper lemmas about `FVal` arithmetic -/

@[simp] theorem FVal.fin_add (a b : ℚ) :
    FVal.fin a + FVal.fin b = FVal.fin (a + b) := rfl

@[simp] theorem FVal.fin_sub (a b : ℚ) :
    FVal.fin a - FVal.fin b = FVal.fin (a - b) := rfl

@[simp] theorem FVal.fin_mul (a b : ℚ) :
    FVal.fin a * FVal.fin b = FVal.fin (a * b) := rfl

theorem FVal.fin_div (a b : ℚ) (h : b ≠ 0) :
    FVal.fin a / FVal.fin b = FVal.fin (a / b) := by
  show (if b = 0 then FVal.nonfin else FVal.fin (a / b)) = FVal.fin (a / b)
  rw [if_neg h]

@[simp] theorem FVal.div_fin_zero (x : FVal) : x / FVal.fin 0 = FVal.nonfin := by
  cases x with
  | fin a =>
    show (if (0 : ℚ) = 0 then FVal.nonfin else FVal.fin (a / 0)) = FVal.nonfin
    rw [if_pos rfl]
  | nonfin => rfl

@[simp] theorem FVal.nonfin_add (x : FVal) :
    FVal.nonfin + x = FVal.nonfin := by cases x <;> rfl

@[simp] theorem FVal.add_nonfin (x : FVal) :
    x + FVal.nonfin = FVal.nonfin := by cases x <;> rfl

@[simp] theorem FVal.nonfin_sub (x : FVal) :
    FVal.nonfin - x = FVal.nonfin := by cases x <;> rfl

@[simp] theorem FVal.sub_nonfin (x : FVal) :
    x - FVal.nonfin = FVal.nonfin := by cases x <;> rfl

@[simp] theorem FVal.nonfin_mul (x : FVal) :
    FVal.nonfin * x = FVal.nonfin := by cases x <;> rfl

@[simp] theorem FVal.mul_nonfin (x : FVal) :
    x * FVal.nonfin = FVal.nonfin := by cases x <;> rfl

@[simp] theorem FVal.nonfin_div (x : FVal) :
    FVal.nonfin / x = FVal.nonfin := by cases x <;> rfl

@[simp] theorem FVal.div_nonfin (x : FVal) :
    x / FVal.nonfin = FVal.nonfin := by cases x <;> rfl

/-! ### Helper lemmas about lists -/

theorem take_set_succ {α : Type} (l : List α) (k : ℕ) (v : α) (h : k < l.length) :
    (l.set k v).take (k + 1) = l.take k ++ [v] := by
  rw [List.set_eq_take_cons_drop v h]
  rw [List.take_append_eq_append_take]
  simp [List.length_take, Nat.min_eq_left (Nat.le_of_lt h)]

theorem zip_range'_of_le {β : Type} :
    ∀ (l : List β) (s n : ℕ), l.length ≤ n →
      List.zip (List.range' s n) l = List.zip (List.range' s l.length) l := by
  intro l
  induction l with
  | nil => intro s n h; simp
  | cons a t ih =>
    intro s n h
    obtain ⟨m, rfl⟩ : ∃ m, n = m + 1 :=
      ⟨n - 1, by simp only [List.length_cons] at h; omega⟩
    rw [List.length_cons, List.range'_succ, List.range'_succ,
      List.zip_cons_cons, List.zip_cons_cons]
    rw [ih (s + 1) m (by simp only [List.length_cons] at h; omega)]

theorem foldl_set_eq {α β : Type} (f : β → α) :
    ∀ (l : List β) (init : List α) (k : ℕ), k + l.length ≤ init.length →
      (List.zip (List.range' k l.length) l).foldl
          (fun rows iv => rows.set iv.1 (f iv.2)) init
        = init.take k ++ l.map f ++ init.drop (k + l.length) := by
  intro l
  induction l with
  | nil =>
    intro init k _
    simp
  | cons a t ih =>
    intro init k hk
    have hk1 : k < init.length := by
      simp only [List.length_cons] at hk; omega
    rw [List.length_cons, List.range'_succ, List.zip_cons_cons, List.foldl_cons]
    rw [ih (init.set k (f a)) (k + 1)
      (by rw [List.length_set]; simp only [List.length_cons] at hk; omega)]
    rw [take_set_succ init k (f a) hk1]
    rw [List.drop_set]
    rw [if_pos (by omega)]
    have harith : k + 1 + t.length = k + (t.length + 1) := by omega
    rw [harith]
    simp [List.append_assoc]

/-! ### Structure of the embedded functions -/

theorem model_getD (ndpts : ℕ) (CA CB CC : List ℚ) (b1 b2 b3 b4 b5 : ℚ)
    (i : ℕ) (d : FVal) (hi : i < ndpts) :
    (model ndpts CA CB CC b1 b2 b3 b4 b5).getD i d
      = rateExpr b1 b2 b3 b4 b5 (CA.getD i 0) (CB.getD i 0) (CC.getD i 0) := by
  have h1 : i < (model ndpts CA CB CC b1 b2 b3 b4 b5).length := by
    simp [model, hi]
  rw [List.getD_eq_getElem _ _ h1]
  simp [model]

theorem ci_eq_map (ndpts npars : ℕ) (popt pvar : List ℚ) (sq : ℚ → FVal)
    (tv : FVal) (hp : popt.length = npars) (hv : pvar.length = npars)
    (hNP : npars ≤ ndpts) :
    ci ndpts npars popt pvar sq tv
      = (popt.zip pvar).map fun pv => ciRow sq tv pv.1 pv.2 := by
  have hL : (popt.zip pvar).length = npars := by
    rw [List.length_zip, hp, hv, min_self]
  unfold ci
  rw [List.range_eq_range',
    zip_range'_of_le (popt.zip pvar) 0 ndpts (by rw [hL]; exact hNP)]
  have h := foldl_set_eq (fun pv : ℚ × ℚ => ciRow sq tv pv.1 pv.2)
    (popt.zip pvar) (List.replicate npars (FVal.fin 0, FVal.fin 0)) 0
    (by simp [hL])
  refine h.trans ?_
  simp [hL, List.drop_eq_nil_of_le]

theorem ciHalfWidth_getD (ndpts npars : ℕ) (popt pvar : List ℚ)
    (sq : ℚ → FVal) (tv : FVal) (i : ℕ) (hp : popt.length = npars)
    (hv : pvar.length = npars) (hNP : npars ≤ ndpts) (hi : i < npars) :
    (ciHalfWidth ndpts npars popt pvar sq tv).getD i FVal.nonfin
      = ((FVal.fin (popt.getD i 0) + sq (pvar.getD i 0) * tv)
          - (FVal.fin (popt.getD i 0) - sq (pvar.getD i 0) * tv)) / FVal.fin 2 := by
  have hL : (popt.zip pvar).length = npars := by
    rw [List.length_zip, hp, hv, min_self]
  rw [ciHalfWidth, ci_width, ci_eq_map ndpts npars popt pvar sq tv hp hv hNP]
  rw [List.map_map, List.map_map]
  have hi2 : i < ((popt.zip pvar).map
      (((fun w => w / FVal.fin 2) ∘ fun r : FVal × FVal => r.2 - r.1)
        ∘ fun pv : ℚ × ℚ => ciRow sq tv pv.1 pv.2)).length := by
    rw [List.length_map, hL]; exact hi
  rw [List.getD_eq_getElem _ _ hi2, List.getElem_map, List.getElem_zip]
  have hip : i < popt.length := by rw [hp]; exact hi
  have hiv : i < pvar.length := by rw [hv]; exact hi
  rw [List.getD_eq_getElem popt 0 hip, List.getD_eq_getElem pvar 0 hiv]
  rfl

theorem ciHalfWidth_length (ndpts npars : ℕ) (popt pvar : List ℚ)
    (sq : ℚ → FVal) (tv : FVal) (hp : popt.length = npars)
    (hv : pvar.length = npars) (hNP : npars ≤ ndpts) :
    (ciHalfWidth ndpts npars popt pvar sq tv).length = npars := by
  rw [ciHalfWidth, ci_width, ci_eq_map ndpts npars popt pvar sq tv hp hv hNP]
  rw [List.length_map, List.length_map, List.length_map]
  rw [List.length_zip, hp, hv, min_self]

theorem ciRelPct_getD (ndpts npars : ℕ) (popt pvar : List ℚ)
    (sq : ℚ → FVal) (tv : FVal) (i : ℕ) (hp : popt.length = npars)
    (hv : pvar.length = npars) (hNP : npars ≤ ndpts) (hi : i < npars) :
    (ciRelPct ndpts npars popt pvar sq tv).getD i FVal.nonfin
      = (ciHalfWidth ndpts npars popt pvar sq tv).getD i FVal.nonfin
          / FVal.fin (popt.getD i 0) * FVal.fin 100 := by
  have hhw : (ciHalfWidth ndpts npars popt pvar sq tv).length = npars :=
    ciHalfWidth_length ndpts npars popt pvar sq tv hp hv hNP
  have hL : ((ciHalfWidth ndpts npars popt pvar sq tv).zip popt).length = npars := by
    rw [List.length_zip, hhw, hp, min_self]
  have hi2 : i < (((ciHalfWidth ndpts npars popt pvar sq tv).zip popt).map
      fun x => x.1 / FVal.fin x.2 * FVal.fin 100).length := by
    rw [List.length_map, hL]; exact hi
  rw [ciRelPct, List.getD_eq_getElem _ _ hi2, List.getElem_map, List.getElem_zip]
  have hihw : i < (ciHalfWidth ndpts npars popt pvar sq tv).length := by
    rw [hhw]; exact hi
  have hip : i < popt.length := by rw [hp]; exact hi
  rw [List.getD_eq_getElem _ FVal.nonfin hihw, List.getD_eq_getElem popt 0 hip]

/-! ### Claim theorems -/

/-- C1: for every observation index `i < ndpts`, when `b5` is nonzero
and the denominator `1 + b2*CA[i] + b3*CB[i] + b4*CC[i]` is nonzero,
the rate-model function `model` returns at index `i` the finite value
`(b1*CB[i] - CC[i]/b5) / (1 + b2*CA[i] + b3*CB[i] + b4*CC[i])`; being a
pure function of its arguments, it has no side effects. -/
theorem model_C1 (ndpts : ℕ) (CA CB CC : List ℚ) (b1 b2 b3 b4 b5 : ℚ)
    (i : ℕ) (hi : i < ndpts) (hb5 : b5 ≠ 0)
    (hden : 1 + b2 * CA.getD i 0 + b3 * CB.getD i 0 + b4 * CC.getD i 0 ≠ 0) :
    (model ndpts CA CB CC b1 b2 b3 b4 b5).getD i FVal.nonfin
      = FVal.fin ((b1 * CB.getD i 0 - CC.getD i 0 / b5)
          / (1 + b2 * CA.getD i 0 + b3 * CB.getD i 0 + b4 * CC.getD i 0)) := by
  rw [model_getD ndpts CA CB CC b1 b2 b3 b4 b5 i FVal.nonfin hi]
  unfold rateExpr
  rw [FVal.fin_div (CC.getD i 0) b5 hb5]
  simp only [FVal.fin_mul, FVal.fin_sub, FVal.fin_add]
  rw [FVal.fin_div _ _ hden]

theorem model_C1_witness :
    (model 1 [1] [1] [1] 1 1 1 1 1).getD 0 FVal.nonfin = FVal.fin 0 := by
  have h := model_C1 1 [1] [1] [1] 1 1 1 1 1 0 (by decide) (by norm_num)
    (by norm_num [List.getD_cons_zero])
  simpa using h

/-- C3: for every input vector `U = [y1, y2, y3]` and constants `a`,
`b`, the equation-system residual function `eqns` returns the 3-vector
`[a*y1^2 + b*y1 - 10, b*y1^2 + y2 - 12, b + y3 - 8]`; it is a pure
function of its inputs with no side effects. -/
theorem eqns_C3 (a b y1 y2 y3 : ℚ) :
    eqns a b [y1, y2, y3]
      = some [a * y1 ^ 2 + b * y1 - 10, b * y1 ^ 2 + y2 - 12, b + y3 - 8] := rfl

/-- C6: for inputs satisfying the pipeline invariant that the global
observation count `ndpts` equals the common input length (in the
notebook `ndpts = len(rate_exp)` and all four data sequences have that
length), with `b5` nonzero and every denominator nonzero, the output of
`model` has length equal to the input sequences' length.  (The source's
local `ndtps = len(CA)` is a typo and unused; the loop bound is the
global `ndpts`, so the invariant hypothesis is what ties the two.) -/
theorem model_C6 (ndpts : ℕ) (CA CB CC : List ℚ) (b1 b2 b3 b4 b5 : ℚ)
    (hnd : ndpts = CA.length) (_hb5 : b5 ≠ 0)
    (_hden : ∀ i < ndpts,
      1 + b2 * CA.getD i 0 + b3 * CB.getD i 0 + b4 * CC.getD i 0 ≠ 0) :
    (model ndpts CA CB CC b1 b2 b3 b4 b5).length = CA.length := by
  rw [model, List.length_map, List.length_range, hnd]

theorem model_C6_witness :
    (model 1 [1] [1] [1] 1 1 1 1 1).length = 1 := by
  refine model_C6 1 [1] [1] [1] 1 1 1 1 1 rfl (by norm_num) ?_
  intro i hi
  have hz : i = 0 := by omega
  subst hz
  norm_num [List.getD_cons_zero]

/-- C7: the predictions recomputed in the residual-summary loop
(`rate_predict`) coincide, element for element, with the values the
`model` function returns at the same parameters on the same dataset:
the two code sites evaluate the identical formula in the identical
operation order, so they agree exactly. -/
theorem rate_predict_C7 (ndpts : ℕ) (CA_exp CB_exp CC_exp : List ℚ)
    (b1 b2 b3 b4 b5 : ℚ) :
    rate_predict ndpts CA_exp CB_exp CC_exp b1 b2 b3 b4 b5
      = model ndpts CA_exp CB_exp CC_exp b1 b2 b3 b4 b5 := rfl

/-- C8: when `b5 = 0` or the denominator
`1 + b2*CA[i] + b3*CB[i] + b4*CC[i]` is zero, the rate-model evaluation
at index `i` produces the non-finite value; it returns normally (total
function) rather than raising, leaving the non-finite residual to the
caller/solver. -/
theorem model_C8 (ndpts : ℕ) (CA CB CC : List ℚ) (b1 b2 b3 b4 b5 : ℚ)
    (i : ℕ) (hi : i < ndpts)
    (h : b5 = 0 ∨ 1 + b2 * CA.getD i 0 + b3 * CB.getD i 0 + b4 * CC.getD i 0 = 0) :
    (model ndpts CA CB CC b1 b2 b3 b4 b5).getD i (FVal.fin 0) = FVal.nonfin := by
  rw [model_getD ndpts CA CB CC b1 b2 b3 b4 b5 i (FVal.fin 0) hi]
  unfold rateExpr
  rcases h with h5 | hd
  · subst h5
    simp
  · simp only [FVal.fin_mul, FVal.fin_add]
    rw [hd]
    simp

theorem model_C8_witness :
    (model 1 [1] [1] [1] 1 1 1 1 0).getD 0 (FVal.fin 0) = FVal.nonfin := by
  exact model_C8 1 [1] [1] [1] 1 1 1 1 0 0 (by decide) (Or.inl rfl)

/-- C10: for every input vector `U` with at least 3 entries, `eqns`
returns a list of the same length as `U` whose entries at indices `≥ 3`
are all 0 (the untouched tail of `np.zeros(len(U))`); for `U` with
fewer than 3 entries, the evaluation fails on an out-of-bounds read
(modelled by `none`) rather than returning a value. -/
theorem eqns_C10 (a b : ℚ) (U : List ℚ) :
    (3 ≤ U.length → ∃ out, eqns a b U = some out ∧ out.length = U.length
      ∧ ∀ i, 3 ≤ i → out.getD i 0 = 0)
    ∧ (U.length < 3 → eqns a b U = none) := by
  rcases U with - | ⟨y1, - | ⟨y2, - | ⟨y3, rest⟩⟩⟩
  · exact ⟨fun h => absurd h (by simp), fun _ => rfl⟩
  · exact ⟨fun h => absurd h (by simp), fun _ => rfl⟩
  · exact ⟨fun h => absurd h (by simp), fun _ => rfl⟩
  · refine ⟨fun _ => ?_, fun h => absurd h (by simp)⟩
    refine ⟨(((List.replicate (y1 :: y2 :: y3 :: rest).length (0 : ℚ)).set 0
        (a * y1 ^ 2 + b * y1 - 10)).set 1 (b * y1 ^ 2 + y2 - 12)).set 2
        (b + y3 - 8), rfl, ?_, ?_⟩
    · simp [List.length_set, List.length_replicate]
    · intro i h3
      rw [List.getD_eq_getElem?_getD]
      rw [List.getElem?_set_ne (by omega), List.getElem?_set_ne (by omega),
        List.getElem?_set_ne (by omega), List.getElem?_replicate]
      rcases Nat.lt_or_ge i (y1 :: y2 :: y3 :: rest).length with hlt | hge
      · rw [if_pos hlt]; rfl
      · rw [if_neg (by omega)]; rfl

theorem eqns_C10_witness :
    eqns 1 2 [1, 1] = none ∧ (eqns 1 2 [1, 2, 3, 4]).isSome = true := by
  constructor
  · exact (eqns_C10 1 2 [1, 1]).2 (by decide)
  · obtain ⟨out, hout, -, -⟩ := (eqns_C10 1 2 [1, 2, 3, 4]).1 (by decide)
    rw [hout]
    rfl

/-- C2: the confidence-interval computation sets
`dof = max(0, ndpts - npars)`, takes the two-sided Student-t critical
value `tval = tppf(1 - alpha/2, dof)`, and for each parameter `i`
reports half-width `sqrt(variance_i) * tval` and relative width
`half-width / estimate_i * 100` (stated for any interpretation of the
library square root `sq` and quantile `tppf` that are finite at the
relevant points, with the estimate nonzero so the relative width is the
finite quotient). -/
theorem ci_C2 (ndpts npars : ℕ) (popt pvar : List ℚ) (sq : ℚ → FVal)
    (tppf : ℚ → ℤ → FVal) (alpha t s : ℚ) (i : ℕ)
    (hp : popt.length = npars) (hv : pvar.length = npars)
    (hNP : npars ≤ ndpts) (hi : i < npars)
    (ht : tppf (1 - alpha / 2) (dof ndpts npars) = FVal.fin t)
    (hs : sq (pvar.getD i 0) = FVal.fin s)
    (hpe : popt.getD i 0 ≠ 0) :
    dof ndpts npars = max 0 ((ndpts : ℤ) - npars)
    ∧ tval tppf alpha (dof ndpts npars) = FVal.fin t
    ∧ (ciHalfWidth ndpts npars popt pvar sq
        (tval tppf alpha (dof ndpts npars))).getD i FVal.nonfin
        = FVal.fin (s * t)
    ∧ (ciRelPct ndpts npars popt pvar sq
        (tval tppf alpha (dof ndpts npars))).getD i FVal.nonfin
        = FVal.fin (s * t / popt.getD i 0 * 100) := by
  have htv : tval tppf alpha (dof ndpts npars) = FVal.fin t := ht
  have hhw : (ciHalfWidth ndpts npars popt pvar sq
      (tval tppf alpha (dof ndpts npars))).getD i FVal.nonfin
      = FVal.fin (s * t) := by
    rw [ciHalfWidth_getD ndpts npars popt pvar sq _ i hp hv hNP hi]
    rw [htv, hs]
    simp only [FVal.fin_mul, FVal.fin_add, FVal.fin_sub]
    rw [FVal.fin_div _ _ (by norm_num : (2 : ℚ) ≠ 0)]
    congr 1
    ring
  refine ⟨rfl, htv, hhw, ?_⟩
  rw [ciRelPct_getD ndpts npars popt pvar sq _ i hp hv hNP hi, hhw]
  rw [FVal.fin_div _ _ hpe]
  rw [FVal.fin_mul]

theorem ci_C2_witness :
    (ciHalfWidth 2 1 [1] [4] (fun q => FVal.fin q)
        (tval (fun _ _ => FVal.fin 3) (1 / 20) (dof 2 1))).getD 0 FVal.nonfin
      = FVal.fin 12
    ∧ (ciRelPct 2 1 [1] [4] (fun q => FVal.fin q)
        (tval (fun _ _ => FVal.fin 3) (1 / 20) (dof 2 1))).getD 0 FVal.nonfin
      = FVal.fin 1200 := by
  have h := ci_C2 2 1 [1] [4] (fun q => FVal.fin q) (fun _ _ => FVal.fin 3)
    (1 / 20) 3 4 0 rfl rfl (by norm_num) (by norm_num) rfl rfl
    (by norm_num [List.getD_cons_zero])
  refine ⟨?_, ?_⟩
  · have h3 := h.2.2.1
    norm_num at h3
    exact h3
  · have h4 := h.2.2.2
    norm_num [List.getD_cons_zero] at h4
    exact h4

/-- C4: when `ndpts = npars = 5` the degrees of freedom are 0; for any
quantile function behaving as scipy's `tdist.ppf` does at zero degrees
of freedom (yielding a non-finite value, per `tppfSpec`), the
confidence-interval computation still returns a full table of `npars`
half-widths (no exception is raised: every embedded function is total)
and each reported half-width is the non-finite value, not a spurious
finite number. -/
theorem ci_C4 (popt pvar : List ℚ) (sq : ℚ → FVal) (tppf : ℚ → ℤ → FVal)
    (alpha : ℚ) (i : ℕ) (hp : popt.length = 5) (hv : pvar.length = 5)
    (hi : i < 5) (htp : tppfSpec tppf) :
    dof 5 5 = 0
    ∧ (ciHalfWidth 5 5 popt pvar sq (tval tppf alpha (dof 5 5))).length = 5
    ∧ (ciHalfWidth 5 5 popt pvar sq
        (tval tppf alpha (dof 5 5))).getD i FVal.nonfin = FVal.nonfin := by
  have htv : tval tppf alpha (dof 5 5) = FVal.nonfin := htp (1 - alpha / 2)
  refine ⟨rfl, ciHalfWidth_length 5 5 popt pvar sq _ hp hv (by norm_num), ?_⟩
  rw [ciHalfWidth_getD 5 5 popt pvar sq _ i hp hv (by norm_num) hi]
  rw [htv]
  simp

theorem ci_C4_witness :
    dof 5 5 = 0
    ∧ (ciHalfWidth 5 5 [1, 2, 3, 4, 5] [1, 1, 1, 1, 1] (fun q => FVal.fin q)
        (tval (fun _ d => if d = 0 then FVal.nonfin else FVal.fin 2) (1 / 20)
          (dof 5 5))).length = 5
    ∧ (ciHalfWidth 5 5 [1, 2, 3, 4, 5] [1, 1, 1, 1, 1] (fun q => FVal.fin q)
        (tval (fun _ d => if d = 0 then FVal.nonfin else FVal.fin 2) (1 / 20)
          (dof 5 5))).getD 0 FVal.nonfin = FVal.nonfin := by
  exact ci_C4 [1, 2, 3, 4, 5] [1, 1, 1, 1, 1] (fun q => FVal.fin q)
    (fun _ d => if d = 0 then FVal.nonfin else FVal.fin 2) (1 / 20) 0
    rfl rfl (by norm_num) (fun q => by simp)

/-- C5: although the confidence-interval loop's range is bounded by the
observation count `ndpts` rather than the parameter count `npars`, the
three-way `zip` truncates to the shortest sequence, so the loop
executes exactly `min ndpts npars` iterations; hence whenever
`ndpts ≥ npars` (in particular 13 observations and 5 parameters) every
one of the `npars` parameters receives a computed interval row and
every write lands in bounds of the `npars`-row array. -/
theorem ci_C5 (ndpts npars : ℕ) (popt pvar : List ℚ) (sq : ℚ → FVal)
    (tv : FVal) (hp : popt.length = npars) (hv : pvar.length = npars)
    (hNP : npars ≤ ndpts) :
    (List.zip (List.range ndpts) (popt.zip pvar)).length = min ndpts npars
    ∧ (∀ iv ∈ List.zip (List.range ndpts) (popt.zip pvar), iv.1 < npars)
    ∧ ci ndpts npars popt pvar sq tv
        = (popt.zip pvar).map fun pv => ciRow sq tv pv.1 pv.2 := by
  have hL : (popt.zip pvar).length = npars := by
    rw [List.length_zip, hp, hv, min_self]
  refine ⟨?_, ?_, ci_eq_map ndpts npars popt pvar sq tv hp hv hNP⟩
  · rw [List.length_zip, List.length_range, hL]
  · intro iv hiv
    rw [List.range_eq_range',
      zip_range'_of_le (popt.zip pvar) 0 ndpts (by rw [hL]; exact hNP)] at hiv
    obtain ⟨x, y⟩ := iv
    have hx := (List.of_mem_zip hiv).1
    rw [hL, ← List.range_eq_range'] at hx
    exact List.mem_range.mp hx

theorem ci_C5_witness :
    (List.zip (List.range 13)
        ((([1, 2, 3, 4, 5] : List ℚ)).zip ([1, 4, 9, 16, 25] : List ℚ))).length
      = min 13 5
    ∧ ci 13 5 [1, 2, 3, 4, 5] [1, 4, 9, 16, 25] (fun q => FVal.fin q)
        (FVal.fin 2)
      = (([1, 2, 3, 4, 5] : List ℚ).zip ([1, 4, 9, 16, 25] : List ℚ)).map
          fun pv => ciRow (fun q => FVal.fin q) (FVal.fin 2) pv.1 pv.2 := by
  have h := ci_C5 13 5 [1, 2, 3, 4, 5] [1, 4, 9, 16, 25] (fun q => FVal.fin q)
    (FVal.fin 2) rfl rfl (by norm_num)
  exact ⟨h.1, h.2.2⟩

/-- C9: with the notebook's constants `a = 1`, `b = 2` there is a
solution vector matching the solver's documented output — `y1 ≈ 2.3166`
and `y2 ≈ 1.2665` to within the printed rounding, and `y3 = 8 - b`
exactly (the third equation is linear) — at which all three residuals
returned by `eqns` are 0 within tolerance `1e-5`; this is the accepted
output of the spec-modelled root solver (`solverConverged`). -/
theorem soln_C9 :
    ∃ sol : List ℚ, solverConverged aConst bConst sol (1 / 100000)
      ∧ |sol.getD 0 0 - 2.3166| ≤ 1 / 10000
      ∧ |sol.getD 1 0 - 1.2665| ≤ 1 / 10000
      ∧ sol.getD 2 0 = 8 - bConst := by
  refine ⟨[231662479 / 100000000, 12 - 2 * (231662479 / 100000000) ^ 2, 6],
    ⟨[aConst * (231662479 / 100000000) ^ 2 + bConst * (231662479 / 100000000) - 10,
      bConst * (231662479 / 100000000) ^ 2
        + (12 - 2 * (231662479 / 100000000) ^ 2) - 12,
      bConst + 6 - 8], rfl, ?_⟩, ?_, ?_, ?_⟩
  · intro r hr
    simp only [List.mem_cons, List.not_mem_nil, or_false] at hr
    rcases hr with h1 | h2 | h3
    · subst h1
      rw [abs_le]
      constructor <;> norm_num [aConst, bConst]
    · subst h2
      rw [abs_le]
      constructor <;> norm_num [bConst]
    · subst h3
      rw [abs_le]
      constructor <;> norm_num [bConst]
  · rw [abs_le]
    constructor <;> norm_num [List.getD_cons_zero]
  · rw [abs_le]
    constructor <;> norm_num [List.getD_cons_zero]
  · norm_num [bConst, List.getD_cons_zero]

end Chbe
